import Mathlib

/- Shallow embedding of the indonesian-rag-system core: sentence-aware
   chunking (src/data/text_splitter.py), the vector-store contract
   (src/data/vector_store.py), retrieval (src/retrieval/retriever.py),
   answer generation and selection (src/generation/generator.py), batched
   embedding (src/models/embedding_model.py) and the pipeline (src/main.py).
   Python strings are modelled as Lean strings, machine floats as exact
   rationals (logits) and reals (softmax probabilities), exceptions as
   Except values, and the random uuid4 id supply as a fresh counter. -/

namespace RagSystem

/-! ### String helpers mirroring the Python builtins used by the source -/

/-- Python str.strip: remove leading and trailing whitespace. -/
def strTrim (s : String) : String :=
  String.mk (((s.toList.dropWhile Char.isWhitespace).reverse.dropWhile Char.isWhitespace).reverse)

/-- Worker for pySplit: splits on whitespace runs, discarding empty pieces. -/
def pySplitAux : List Char → List Char → List String
  | [], [] => []
  | [], acc => [String.mk acc.reverse]
  | c :: rest, acc =>
    if c.isWhitespace then
      if acc.isEmpty then pySplitAux rest []
      else String.mk acc.reverse :: pySplitAux rest []
    else pySplitAux rest (c :: acc)

/-- Python str.split() with no argument: whitespace split, empties dropped. -/
def pySplit (s : String) : List String := pySplitAux s.toList []

/-- Python len(s.split()): the word count the splitter uses for sentences. -/
def wordCount (s : String) : ℕ := (pySplit s).length

/-- Python str.lower restricted to ASCII case mapping. -/
def strLower (s : String) : String := String.mk (s.toList.map Char.toLower)

/-- Python substring containment pat in text, over character lists. -/
def listContainsSub (pat : List Char) : List Char → Bool
  | [] => pat.isEmpty
  | c :: rest => pat.isPrefixOf (c :: rest) || listContainsSub pat rest

/-- Worker for splitDotSpace: Python str.split with separator ". ". -/
def splitDotSpaceAux : List Char → List Char → List String
  | '.' :: ' ' :: rest, acc => String.mk acc.reverse :: splitDotSpaceAux rest []
  | c :: rest, acc => splitDotSpaceAux rest (c :: acc)
  | [], acc => [String.mk acc.reverse]

/-- Python context.split(". ") used by the sentence-fallback answer search. -/
def splitDotSpace (s : String) : List String := splitDotSpaceAux s.toList []

/-- Python " ".join. -/
def joinSpace : List String → String
  | [] => ""
  | [s] => s
  | s :: rest => s ++ " " ++ joinSpace rest

/-- Python "\n\n".join. -/
def joinBlankLines : List String → String
  | [] => ""
  | [s] => s
  | s :: rest => s ++ "\n\n" ++ joinBlankLines rest

/-! ### Sentence segmentation (IndonesianTextSplitter.split_sentences)

The Python code splits on the regular expression [.!?।]+|\n\n.  The scan
is modelled as a left-to-right state machine: normal accumulation, inside
a run of sentence-terminal punctuation (greedy +), or having just seen a
single newline that may begin a blank-line boundary. -/

/-- Characters matched by the class [.!?।]. -/
def isSentenceEnd (c : Char) : Bool := c = '.' || c = '!' || c = '?' || c = '।'

/-- Scanner state for the regex split. -/
inductive SegState
  | normal
  | endRun
  | sawNewline
  deriving Repr, DecidableEq

/-- Worker performing re.split over the character list. -/
def segmentAux : List Char → List Char → SegState → List String
  | [], acc, .normal => [String.mk acc.reverse]
  | [], acc, .endRun => [String.mk acc.reverse]
  | [], acc, .sawNewline => [String.mk ('\n' :: acc).reverse]
  | c :: rest, acc, .normal =>
    if isSentenceEnd c then String.mk acc.reverse :: segmentAux rest [] .endRun
    else if c = '\n' then segmentAux rest acc .sawNewline
    else segmentAux rest (c :: acc) .normal
  | c :: rest, acc, .sawNewline =>
    if c = '\n' then String.mk acc.reverse :: segmentAux rest [] .normal
    else if isSentenceEnd c then
      String.mk ('\n' :: acc).reverse :: segmentAux rest [] .endRun
    else segmentAux rest (c :: '\n' :: acc) .normal
  | c :: rest, acc, .endRun =>
    if isSentenceEnd c then segmentAux rest acc .endRun
    else if c = '\n' then segmentAux rest acc .sawNewline
    else segmentAux rest [c] .normal

/-- split_sentences: regex split, then strip each piece and drop empties. -/
def split_sentences (text : String) : List String :=
  ((segmentAux text.toList [] .normal).map strTrim).filter (fun s => s ≠ "")

/-! ### Chunk assembly (IndonesianTextSplitter.create_chunks)

The worker returns the emitted buffers as sentence lists; the chunk
strings of the source are their space-joins. -/

/-- Worker for create_chunks: cur is the current sentence buffer and
curLen its tracked cumulative word count. -/
def createChunksAux (chunkSize chunkOverlap : ℕ) :
    List String → List String → ℕ → List (List String)
  | [], cur, _ => if cur.isEmpty then [] else [cur]
  | s :: rest, cur, curLen =>
    let sl := wordCount s
    if chunkSize < curLen + sl ∧ cur ≠ [] then
      let carried := cur.drop (cur.length - chunkOverlap)
      cur :: createChunksAux chunkSize chunkOverlap rest (carried ++ [s])
        ((carried.map wordCount).sum + sl)
    else
      createChunksAux chunkSize chunkOverlap rest (cur ++ [s]) (curLen + sl)

/-- The emitted chunk buffers (lists of sentences), in emission order. -/
def create_chunks_buffers (chunkSize chunkOverlap : ℕ) (sentences : List String) :
    List (List String) :=
  createChunksAux chunkSize chunkOverlap sentences [] 0

/-- create_chunks: the emitted chunks as space-joined strings. -/
def create_chunks (chunkSize chunkOverlap : ℕ) (sentences : List String) : List String :=
  (create_chunks_buffers chunkSize chunkOverlap sentences).map joinSpace

/-- A loaded document as produced by IndonesianTextLoader. -/
structure DataDocument where
  content : String
  source : String
  language : String
  file_size : ℕ
  deriving Repr, DecidableEq

/-- A chunk record as produced by IndonesianTextSplitter.split_documents. -/
structure Chunk where
  content : String
  source : String
  chunk_id : ℕ
  total_chunks : ℕ
  language : String
  original_doc_size : ℕ
  deriving Repr, DecidableEq

instance : Inhabited Chunk := ⟨⟨"", "", 0, 0, "", 0⟩⟩

/-- The chunk records produced for a single document. -/
def docChunks (chunkSize chunkOverlap : ℕ) (doc : DataDocument) : List Chunk :=
  let chunks := create_chunks chunkSize chunkOverlap (split_sentences doc.content)
  chunks.enum.map (fun p =>
    ⟨p.2, doc.source, p.1, chunks.length, "indonesian", doc.content.length⟩)

/-- split_documents: per-document chunk records, concatenated in order. -/
def split_documents (chunkSize chunkOverlap : ℕ) (docs : List DataDocument) : List Chunk :=
  docs.flatMap (docChunks chunkSize chunkOverlap)

/-- The sentence buffers produced for a single document. -/
def docBuffers (chunkSize chunkOverlap : ℕ) (doc : DataDocument) : List (List String) :=
  create_chunks_buffers chunkSize chunkOverlap (split_sentences doc.content)

/-! ### Chunker invariants -/

/-- The overlap relation between consecutive chunk buffers: the leading
sentences of the later buffer are the trailing overlap of the earlier. -/
def overlapRel (ov : ℕ) (a b : List String) : Prop :=
  b.take (min ov a.length) = a.drop (a.length - ov)

lemma createChunksAux_head_extends (chunkSize chunkOverlap : ℕ) :
    ∀ (sents cur : List String) (curLen : ℕ),
      createChunksAux chunkSize chunkOverlap sents cur curLen = [] ∨
      ∃ ext, (createChunksAux chunkSize chunkOverlap sents cur curLen).head?
        = some (cur ++ ext) := by
  intro sents
  induction sents with
  | nil =>
    intro cur curLen
    by_cases h : cur.isEmpty
    · left; simp [createChunksAux, h]
    · right; exact ⟨[], by simp [createChunksAux, h]⟩
  | cons s rest ih =>
    intro cur curLen
    simp only [createChunksAux]
    by_cases h : chunkSize < curLen + wordCount s ∧ cur ≠ []
    · right
      rw [if_pos h]
      exact ⟨[], by simp⟩
    · rw [if_neg h]
      rcases ih (cur ++ [s]) (curLen + wordCount s) with h1 | ⟨ext, h2⟩
      · left; exact h1
      · right
        exact ⟨[s] ++ ext, by rw [h2, List.append_assoc]⟩

lemma createChunksAux_chain (chunkSize chunkOverlap : ℕ) :
    ∀ (sents cur : List String) (curLen : ℕ),
      List.Chain' (overlapRel chunkOverlap)
        (createChunksAux chunkSize chunkOverlap sents cur curLen) := by
  intro sents
  induction sents with
  | nil =>
    intro cur curLen
    by_cases h : cur.isEmpty <;> simp [createChunksAux, h]
  | cons s rest ih =>
    intro cur curLen
    simp only [createChunksAux]
    by_cases h : chunkSize < curLen + wordCount s ∧ cur ≠ []
    · rw [if_pos h]
      rw [List.chain'_cons']
      refine ⟨?_, ih _ _⟩
      intro b hb
      rcases createChunksAux_head_extends chunkSize chunkOverlap rest
          (cur.drop (cur.length - chunkOverlap) ++ [s])
          (((cur.drop (cur.length - chunkOverlap)).map wordCount).sum + wordCount s)
        with h1 | ⟨ext, h2⟩
      · rw [h1] at hb; simp at hb
      · rw [h2] at hb
        simp only [Option.mem_def, Option.some.injEq] at hb
        subst hb
        unfold overlapRel
        have hlen : (cur.drop (cur.length - chunkOverlap)).length
            = min chunkOverlap cur.length := by
          rw [List.length_drop]; omega
        rw [← hlen, List.append_assoc, List.take_left]
    · rw [if_neg h]
      exact ih _ _

/-- C3: for every document whose chunking (with positive overlap) produces
consecutive chunk buffers i and i+1, the last min(chunk_overlap, buffer
size) sentences of buffer i reappear in order as the leading sentences of
buffer i+1. -/
theorem c3_consecutive_chunk_overlap (chunkSize chunkOverlap : ℕ) (doc : DataDocument)
    (hov : 0 < chunkOverlap) (i : ℕ)
    (hi : i + 1 < (docBuffers chunkSize chunkOverlap doc).length) :
    ((docBuffers chunkSize chunkOverlap doc).get ⟨i + 1, hi⟩).take
        (min chunkOverlap
          ((docBuffers chunkSize chunkOverlap doc).get ⟨i, by omega⟩).length)
      = ((docBuffers chunkSize chunkOverlap doc).get ⟨i, by omega⟩).drop
          (((docBuffers chunkSize chunkOverlap doc).get ⟨i, by omega⟩).length
            - chunkOverlap) := by
  have hch := createChunksAux_chain chunkSize chunkOverlap
    (split_sentences doc.content) [] 0
  rw [List.chain'_iff_get] at hch
  simp only [docBuffers, create_chunks_buffers] at hi ⊢
  exact hch i (by omega)

theorem c3_witness :
    0 < 1 ∧
    0 + 1 < (docBuffers 3 1 ⟨"a b c. d e. f", "doc.txt", "indonesian", 13⟩).length ∧
    ((docBuffers 3 1 ⟨"a b c. d e. f", "doc.txt", "indonesian", 13⟩).get
        ⟨0 + 1, by decide⟩).take
        (min 1 ((docBuffers 3 1 ⟨"a b c. d e. f", "doc.txt", "indonesian", 13⟩).get
          ⟨0, by decide⟩).length)
      = ((docBuffers 3 1 ⟨"a b c. d e. f", "doc.txt", "indonesian", 13⟩).get
          ⟨0, by decide⟩).drop
          (((docBuffers 3 1 ⟨"a b c. d e. f", "doc.txt", "indonesian", 13⟩).get
            ⟨0, by decide⟩).length - 1) :=
  ⟨by decide, by decide,
    c3_consecutive_chunk_overlap 3 1 ⟨"a b c. d e. f", "doc.txt", "indonesian", 13⟩
      (by decide) 0 (by decide)⟩

/-- C4: every chunk of a document records total_chunks equal to the number
of chunks produced for that document, and the chunk_id values are exactly
0, 1, ..., total_chunks - 1 in emission order. -/
theorem c4_chunk_index_contiguous (chunkSize chunkOverlap : ℕ) (doc : DataDocument)
    (h : split_sentences doc.content ≠ []) :
    (∀ ch ∈ docChunks chunkSize chunkOverlap doc,
        ch.total_chunks = (docChunks chunkSize chunkOverlap doc).length) ∧
    (docChunks chunkSize chunkOverlap doc).map Chunk.chunk_id
      = List.range (docChunks chunkSize chunkOverlap doc).length := by
  constructor
  · intro ch hch
    simp only [docChunks, List.length_map, List.enum_length] at hch ⊢
    rcases List.mem_map.mp hch with ⟨p, _, rfl⟩
    rfl
  · simp only [docChunks, List.length_map, List.enum_length, List.map_map]
    exact List.enum_map_fst _

theorem c4_witness :
    split_sentences (DataDocument.content ⟨"x aa. y bb", "w.txt", "indonesian", 10⟩) ≠ [] ∧
    ((∀ ch ∈ docChunks 1 1 ⟨"x aa. y bb", "w.txt", "indonesian", 10⟩,
        ch.total_chunks = (docChunks 1 1 ⟨"x aa. y bb", "w.txt", "indonesian", 10⟩).length) ∧
      (docChunks 1 1 ⟨"x aa. y bb", "w.txt", "indonesian", 10⟩).map Chunk.chunk_id
        = List.range (docChunks 1 1 ⟨"x aa. y bb", "w.txt", "indonesian", 10⟩).length) :=
  ⟨by decide, c4_chunk_index_contiguous 1 1 ⟨"x aa. y bb", "w.txt", "indonesian", 10⟩ (by decide)⟩

/-! ### Answer generation (IndonesianGenerator)

The external QA model is abstracted as the token ids and the two logit
vectors it produces for a (question, context) pair, plus the tokenizer
decode function; exceptions in the inference call are an Except error.
torch.argmax returns the index of the first maximal entry; torch.softmax
is the real softmax, embedded with Real.exp. -/

/-- Maximum of a list of rationals (the empty list never occurs in the
source; 0 is an arbitrary default). -/
def maxVal : List ℚ → ℚ
  | [] => 0
  | [x] => x
  | x :: y :: rest => max x (maxVal (y :: rest))

/-- Index of the first maximal entry, as torch.argmax computes it. -/
def argmaxIdx : List ℚ → ℕ
  | [] => 0
  | [_] => 0
  | x :: y :: rest => if maxVal (y :: rest) ≤ x then 0 else argmaxIdx (y :: rest) + 1

/-- The exponentials of a logit vector. -/
noncomputable def expList (l : List ℚ) : List ℝ := l.map (fun x : ℚ => Real.exp (x : ℝ))

/-- torch.max(torch.softmax(logits)): the largest softmax probability. -/
noncomputable def maxSoftmax (l : List ℚ) : ℝ := (expList l).foldr max 0 / (expList l).sum

/-- The softmax probability of entry i of a logit vector. -/
noncomputable def softmaxProb (l : List ℚ) (i : ℕ) : ℝ :=
  Real.exp ((l.getD i 0 : ℚ) : ℝ) / (expList l).sum

/-- The output of one QA inference call on (question, context). -/
structure QAInference where
  inputIds : List ℕ
  startLogits : List ℚ
  endLogits : List ℚ
  decode : List ℕ → String

/-- start_idx: argmax of the start logits. -/
def qaStartIdx (m : QAInference) : ℕ := argmaxIdx m.startLogits

/-- end_idx: argmax of the end logits plus one (exclusive bound), computed
independently of the chosen start index. -/
def qaEndIdx (m : QAInference) : ℕ := argmaxIdx m.endLogits + 1

/-- The decoded answer span input_ids[0][start_idx:end_idx]. -/
def spanAnswer (m : QAInference) : String :=
  m.decode ((m.inputIds.drop (qaStartIdx m)).take (qaEndIdx m - qaStartIdx m))

/-- confidence = (start_score + end_score) / 2 before any fallback. -/
noncomputable def baseConfidence (m : QAInference) : ℝ :=
  (maxSoftmax m.startLogits + maxSoftmax m.endLogits) / 2

/-! _find_best_sentence_answer -/

/-- The lowercase question words longer than two characters. -/
def question_keywords (question : String) : List String :=
  ((pySplit question).filter (fun w => 2 < w.length)).map strLower

/-- How many keywords occur in the lowercased sentence, by Python substring
containment. -/
def sentenceScore (kws : List String) (s : String) : ℕ :=
  (kws.filter (fun kw => listContainsSub kw.toList (strLower s).toList)).length

/-- A sentence participates in scoring unless its stripped length is
below 10. -/
def qualifies (s : String) : Bool := decide (10 ≤ (strTrim s).length)

/-- One step of the best-sentence scan: skip short sentences, keep the
first sentence that strictly improves the best score. -/
def bestStep (kws : List String) (b : String × ℕ) (s : String) : String × ℕ :=
  if (strTrim s).length < 10 then b
  else if b.2 < sentenceScore kws s then (s, sentenceScore kws s) else b

/-- _find_best_sentence_answer: the sentence of context (split on ". ")
with the most question keywords; zero best score falls back to the first
sentence with a period appended. -/
def find_best_sentence_answer (question context : String) : String :=
  let sentences := splitDotSpace context
  let kws := question_keywords question
  let best := sentences.foldl (bestStep kws) ("", 0)
  if best.1 = "" then
    match sentences with
    | [] => "Jawaban tidak ditemukan."
    | s0 :: _ => s0 ++ "."
  else best.1

/-- The highest score among qualifying sentences. -/
def maxQualScore (kws : List String) (sentences : List String) : ℕ :=
  ((sentences.filter qualifies).map (sentenceScore kws)).foldr max 0

/-- The fixed error answer of generate_qa_answer and generate_text_answer. -/
def qaErrorMsg : String := "Maaf, terjadi kesalahan dalam menghasilkan jawaban."

/-- The result dictionary of generate_qa_answer / generate_text_answer. -/
structure QAResult where
  answer : String
  confidence : ℝ
  start_score : Option ℝ
  end_score : Option ℝ

/-- generate_qa_answer: decode the argmax span, average the two maximal
softmax probabilities, and fall back to the best keyword sentence (scaling
confidence by 0.8) when the stripped span is shorter than 2 characters;
any inference exception yields the fixed error answer with confidence 0. -/
noncomputable def generate_qa_answer (inf : Except String QAInference)
    (question context : String) : QAResult :=
  match inf with
  | .error _ => ⟨qaErrorMsg, 0, none, none⟩
  | .ok m =>
    if (strTrim (spanAnswer m)).length < 2 then
      ⟨strTrim (find_best_sentence_answer question context),
        baseConfidence m * (8 / 10),
        some (maxSoftmax m.startLogits), some (maxSoftmax m.endLogits)⟩
    else
      ⟨strTrim (spanAnswer m), baseConfidence m,
        some (maxSoftmax m.startLogits), some (maxSoftmax m.endLogits)⟩

/-- Claim C1 describes the keyword scoring as whole-word containment; this
definition follows that spec wording (a keyword scores when it equals one
of the whitespace-separated words of the lowercased sentence), to be
compared with the substring scoring the source implements. -/
def sentenceScoreWholeWord (kws : List String) (s : String) : ℕ :=
  (kws.filter (fun kw => (pySplit (strLower s)).contains kw)).length

/-- The best-sentence selection as claim C1 words it, with whole-word
scoring; all other details follow the source selection. -/
def findBestSentenceWholeWord (question context : String) : String :=
  let sentences := splitDotSpace context
  let kws := question_keywords question
  let best := sentences.foldl
    (fun (b : String × ℕ) s =>
      if (strTrim s).length < 10 then b
      else if b.2 < sentenceScoreWholeWord kws s then (s, sentenceScoreWholeWord kws s)
      else b) ("", 0)
  if best.1 = "" then
    match sentences with
    | [] => "Jawaban tidak ditemukan."
    | s0 :: _ => s0 ++ "."
  else best.1

/-! ### Characterization of the best-sentence scan -/

lemma maxQualScore_cons (kws : List String) (s : String) (l : List String) :
    maxQualScore kws (s :: l)
      = if qualifies s then max (sentenceScore kws s) (maxQualScore kws l)
        else maxQualScore kws l := by
  simp only [maxQualScore, List.filter_cons]
  by_cases hq : qualifies s <;> simp [hq]

lemma qualifies_iff_not_short (s : String) :
    qualifies s = true ↔ ¬ (strTrim s).length < 10 := by
  simp [qualifies]

lemma bestFold_characterize (kws : List String) :
    ∀ (l : List String) (b : String × ℕ),
      (l.foldl (bestStep kws) b).2 = max b.2 (maxQualScore kws l) ∧
      (maxQualScore kws l ≤ b.2 → l.foldl (bestStep kws) b = b) ∧
      (b.2 < maxQualScore kws l →
        l.find? (fun s => qualifies s && (sentenceScore kws s == maxQualScore kws l))
          = some (l.foldl (bestStep kws) b).1) := by
  intro l
  induction l with
  | nil =>
    intro b
    refine ⟨?_, fun _ => rfl, fun h => absurd h (by simp [maxQualScore])⟩
    simp [maxQualScore]
  | cons s l ih =>
    intro b
    rw [List.foldl_cons, maxQualScore_cons]
    by_cases hq : qualifies s = true
    · have hstep : bestStep kws b s
          = if b.2 < sentenceScore kws s then (s, sentenceScore kws s) else b := by
        rw [bestStep, if_neg ((qualifies_iff_not_short s).mp hq)]
      rw [hq, if_pos rfl]
      by_cases hlt : b.2 < sentenceScore kws s
      · rw [hstep, if_pos hlt]
        obtain ⟨ih1, ih2, ih3⟩ := ih (s, sentenceScore kws s)
        refine ⟨by rw [ih1]; omega, fun hle => absurd hle (by omega), fun _ => ?_⟩
        by_cases hcmp : maxQualScore kws l ≤ sentenceScore kws s
        · have hmax : max (sentenceScore kws s) (maxQualScore kws l)
              = sentenceScore kws s := by omega
          rw [hmax, List.find?_cons_of_pos _ (by simp [hq]), ih2 hcmp]
        · have hmax : max (sentenceScore kws s) (maxQualScore kws l)
              = maxQualScore kws l := by omega
          rw [hmax, List.find?_cons_of_neg _ (by simp [hq]; omega)]
          exact ih3 (by omega)
      · rw [hstep, if_neg hlt]
        obtain ⟨ih1, ih2, ih3⟩ := ih b
        refine ⟨by rw [ih1]; omega, fun hle => ih2 (by omega), fun hgt => ?_⟩
        have hmax : max (sentenceScore kws s) (maxQualScore kws l)
            = maxQualScore kws l := by omega
        rw [hmax] at hgt ⊢
        rw [List.find?_cons_of_neg _ (by simp [hq]; omega)]
        exact ih3 hgt
    · have hq' : qualifies s = false := by
        cases hqb : qualifies s
        · rfl
        · exact absurd hqb hq
      have hstep : bestStep kws b s = b := by
        rw [bestStep, if_pos]
        by_contra hc
        exact hq ((qualifies_iff_not_short s).mpr hc)
      rw [hq', if_neg (by simp), hstep]
      obtain ⟨ih1, ih2, ih3⟩ := ih b
      refine ⟨ih1, ih2, fun hgt => ?_⟩
      rw [List.find?_cons_of_neg _ (by simp [hq'])]
      exact ih3 hgt

lemma strTrim_empty : strTrim "" = "" := rfl

/-- C1 (amended): when the stripped decoded span is shorter than 2
characters, generate_qa_answer discards it, answers with the stripped best
keyword sentence, and multiplies the computed confidence by 0.8; the best
sentence is selected by case-insensitive substring keyword counting over
the ". "-split sentences, sentences stripping to fewer than 10 characters
are skipped, the first sentence attaining the maximal score wins ties, and
a zero maximal score falls back to the first sentence with a period
appended. -/
theorem c1_qa_short_span_fallback (m : QAInference) (question context : String)
    (hshort : (strTrim (spanAnswer m)).length < 2) :
    (generate_qa_answer (Except.ok m) question context).answer
        = strTrim (find_best_sentence_answer question context) ∧
    (generate_qa_answer (Except.ok m) question context).confidence
        = baseConfidence m * (8 / 10) ∧
    (maxQualScore (question_keywords question) (splitDotSpace context) = 0 →
      find_best_sentence_answer question context
        = (match splitDotSpace context with
            | [] => "Jawaban tidak ditemukan."
            | s0 :: _ => s0 ++ ".")) ∧
    (0 < maxQualScore (question_keywords question) (splitDotSpace context) →
      (splitDotSpace context).find? (fun s =>
          qualifies s && (sentenceScore (question_keywords question) s
            == maxQualScore (question_keywords question) (splitDotSpace context)))
        = some (find_best_sentence_answer question context)) := by
  refine ⟨?_, ?_, ?_, ?_⟩
  · simp [generate_qa_answer, if_pos hshort]
  · simp [generate_qa_answer, if_pos hshort]
  · intro hzero
    obtain ⟨_, h2, _⟩ := bestFold_characterize (question_keywords question)
      (splitDotSpace context) ("", 0)
    rw [find_best_sentence_answer]
    rw [h2 (by omega)]
    simp
  · intro hpos
    obtain ⟨_, _, h3⟩ := bestFold_characterize (question_keywords question)
      (splitDotSpace context) ("", 0)
    have hfind := h3 hpos
    have hne : ((splitDotSpace context).foldl
        (bestStep (question_keywords question)) ("", 0)).1 ≠ "" := by
      intro heq
      have hp := List.find?_some hfind
      rw [heq] at hp
      simp only [Bool.and_eq_true] at hp
      have := (qualifies_iff_not_short "").mp hp.1
      rw [strTrim_empty] at this
      simp at this
    rw [find_best_sentence_answer]
    simp only [if_neg hne]
    exact hfind

theorem c1_witness :
    (strTrim (spanAnswer ⟨[], [1], [1], fun _ => "J"⟩)).length < 2 ∧
    ((generate_qa_answer (Except.ok ⟨[], [1], [1], fun _ => "J"⟩)
          "ada apa" "short. kata adalah panjang contoh").answer
        = strTrim (find_best_sentence_answer "ada apa" "short. kata adalah panjang contoh") ∧
      (generate_qa_answer (Except.ok ⟨[], [1], [1], fun _ => "J"⟩)
          "ada apa" "short. kata adalah panjang contoh").confidence
        = baseConfidence ⟨[], [1], [1], fun _ => "J"⟩ * (8 / 10) ∧
      (maxQualScore (question_keywords "ada apa")
          (splitDotSpace "short. kata adalah panjang contoh") = 0 →
        find_best_sentence_answer "ada apa" "short. kata adalah panjang contoh"
          = (match splitDotSpace "short. kata adalah panjang contoh" with
              | [] => "Jawaban tidak ditemukan."
              | s0 :: _ => s0 ++ ".")) ∧
      (0 < maxQualScore (question_keywords "ada apa")
          (splitDotSpace "short. kata adalah panjang contoh") →
        (splitDotSpace "short. kata adalah panjang contoh").find? (fun s =>
            qualifies s && (sentenceScore (question_keywords "ada apa") s
              == maxQualScore (question_keywords "ada apa")
                (splitDotSpace "short. kata adalah panjang contoh")))
          = some (find_best_sentence_answer "ada apa"
              "short. kata adalah panjang contoh"))) :=
  ⟨by decide, c1_qa_short_span_fallback ⟨[], [1], [1], fun _ => "J"⟩
    "ada apa" "short. kata adalah panjang contoh" (by decide)⟩

/-- C1 (counterexample): with the claim's own example span "J" the
fallback fires, but the selected sentence is not the one whole-word
scoring selects, refuting the claim's whole-word reading of the keyword
containment. -/
theorem c1_counterexample :
    (generate_qa_answer (Except.ok ⟨[], [1], [1], fun _ => "J"⟩)
        "ada apa" "short. kata adalah panjang contoh").answer
      ≠ strTrim (findBestSentenceWholeWord "ada apa"
          "short. kata adalah panjang contoh") := by
  decide

/-! ### Properties of argmax and softmax -/

lemma maxVal_cons (x : ℚ) (l : List ℚ) (h : l ≠ []) :
    maxVal (x :: l) = max x (maxVal l) := by
  cases l with
  | nil => exact absurd rfl h
  | cons y rest => rfl

lemma le_maxVal : ∀ (l : List ℚ), ∀ x ∈ l, x ≤ maxVal l := by
  intro l
  induction l with
  | nil => intro x hx; simp at hx
  | cons y rest ih =>
    intro x hx
    cases rest with
    | nil => simp at hx; simp [maxVal, hx]
    | cons z t =>
      rw [maxVal_cons y (z :: t) (by simp)]
      rcases List.mem_cons.mp hx with rfl | hx'
      · exact le_max_left _ _
      · exact le_trans (ih x hx') (le_max_right _ _)

lemma argmaxIdx_lt_length : ∀ (l : List ℚ), l ≠ [] → argmaxIdx l < l.length := by
  intro l
  induction l with
  | nil => intro h; exact absurd rfl h
  | cons x rest ih =>
    intro _
    cases rest with
    | nil => simp [argmaxIdx]
    | cons y t =>
      rw [argmaxIdx]
      by_cases hc : maxVal (y :: t) ≤ x
      · rw [if_pos hc]; simp
      · rw [if_neg hc]
        have := ih (by simp)
        simpa using Nat.succ_lt_succ this

lemma getD_argmaxIdx : ∀ (l : List ℚ), l ≠ [] → l.getD (argmaxIdx l) 0 = maxVal l := by
  intro l
  induction l with
  | nil => intro h; exact absurd rfl h
  | cons x rest ih =>
    intro _
    cases rest with
    | nil => simp [argmaxIdx, maxVal]
    | cons y t =>
      rw [argmaxIdx, maxVal_cons x (y :: t) (by simp)]
      by_cases hc : maxVal (y :: t) ≤ x
      · rw [if_pos hc]
        simp [max_eq_left hc]
      · rw [if_neg hc]
        have hx : x ≤ maxVal (y :: t) := le_of_lt (lt_of_not_le hc)
        simp only [List.getD_cons_succ]
        rw [ih (by simp), max_eq_right hx]

lemma expList_sum_nonneg (l : List ℚ) : 0 ≤ (expList l).sum := by
  apply List.sum_nonneg
  intro x hx
  simp only [expList, List.mem_map] at hx
  obtain ⟨a, _, rfl⟩ := hx
  exact le_of_lt (Real.exp_pos _)

lemma expList_sum_pos (l : List ℚ) (h : l ≠ []) : 0 < (expList l).sum := by
  apply List.sum_pos
  · intro x hx
    simp only [expList, List.mem_map] at hx
    obtain ⟨a, _, rfl⟩ := hx
    exact Real.exp_pos _
  · simp only [expList, ne_eq, List.map_eq_nil_iff]
    exact h

lemma foldr_max_nonneg (L : List ℝ) : 0 ≤ L.foldr max 0 := by
  induction L with
  | nil => simp
  | cons x t ih => exact le_trans ih (le_max_right _ _)

lemma foldr_max_le_sum (L : List ℝ) (h : ∀ x ∈ L, 0 ≤ x) : L.foldr max 0 ≤ L.sum := by
  induction L with
  | nil => simp
  | cons x t ih =>
    rw [List.foldr_cons, List.sum_cons]
    have hx : 0 ≤ x := h x (by simp)
    have hts : 0 ≤ t.sum := List.sum_nonneg (fun y hy => h y (by simp [hy]))
    have h1 : x ≤ x + t.sum := by linarith
    have h2 : t.foldr max 0 ≤ x + t.sum := by
      have := ih (fun y hy => h y (by simp [hy]))
      linarith
    exact max_le h1 h2

lemma maxSoftmax_nonneg (l : List ℚ) : 0 ≤ maxSoftmax l :=
  div_nonneg (foldr_max_nonneg _) (expList_sum_nonneg l)

lemma maxSoftmax_le_one (l : List ℚ) : maxSoftmax l ≤ 1 := by
  cases l with
  | nil => simp [maxSoftmax, expList]
  | cons x t =>
    rw [maxSoftmax, div_le_one (expList_sum_pos (x :: t) (by simp))]
    apply foldr_max_le_sum
    intro y hy
    simp only [expList, List.mem_map] at hy
    obtain ⟨a, _, rfl⟩ := hy
    exact le_of_lt (Real.exp_pos _)

lemma exp_monotone : Monotone (fun x : ℝ => Real.exp x) :=
  fun _ _ h => Real.exp_le_exp.mpr h

lemma foldr_max_expList : ∀ (l : List ℚ), l ≠ [] →
    (expList l).foldr max 0 = Real.exp ((maxVal l : ℚ) : ℝ) := by
  intro l
  induction l with
  | nil => intro h; exact absurd rfl h
  | cons x rest ih =>
    intro _
    cases rest with
    | nil =>
      simp only [expList, List.map_cons, List.map_nil, List.foldr_cons, List.foldr_nil,
        maxVal]
      exact max_eq_left (le_of_lt (Real.exp_pos _))
    | cons y t =>
      have hne : (y :: t : List ℚ) ≠ [] := by simp
      have ihv := ih hne
      have hfold : (expList (x :: y :: t)).foldr max 0
          = max (Real.exp ((x : ℚ) : ℝ)) ((expList (y :: t)).foldr max 0) := by
        simp only [expList, List.map_cons, List.foldr_cons]
      rw [maxVal_cons x (y :: t) hne, hfold, ihv, Rat.cast_max]
      exact (exp_monotone.map_max).symm

lemma maxSoftmax_eq_argmax_prob (l : List ℚ) (h : l ≠ []) :
    maxSoftmax l = softmaxProb l (argmaxIdx l) := by
  rw [maxSoftmax, softmaxProb, getD_argmaxIdx l h, foldr_max_expList l h]

lemma softmaxProb_le_maxSoftmax (l : List ℚ) (j : ℕ) (hj : j < l.length) :
    softmaxProb l j ≤ maxSoftmax l := by
  have h : l ≠ [] := by
    intro heq
    rw [heq] at hj
    simp at hj
  rw [maxSoftmax, softmaxProb, foldr_max_expList l h]
  have hmem : l.getD j 0 ∈ l := by
    rw [List.getD_eq_getElem l 0 hj]
    exact List.getElem_mem hj
  have hnum : Real.exp ((l.getD j 0 : ℚ) : ℝ) ≤ Real.exp ((maxVal l : ℚ) : ℝ) :=
    Real.exp_le_exp.mpr (Rat.cast_le.mpr (le_maxVal l _ hmem))
  exact (div_le_div_iff_of_pos_right (expList_sum_pos l h)).mpr hnum

/-- C2: the span runs from the first-maximal start-logit index to the
first-maximal end-logit index plus one (exclusive), the end index is a
function of the end distribution alone, nothing guards against the end
bound falling at or before the start index, and outside the short-span
fallback the confidence is the arithmetic mean of the maximal softmax
probabilities of the start and end distributions, each attained at its
argmax index. -/
theorem c2_span_selection (m : QAInference) (question context : String)
    (hs : m.startLogits ≠ []) (he : m.endLogits ≠ []) :
    (qaStartIdx m < m.startLogits.length ∧
      ∀ x ∈ m.startLogits, x ≤ m.startLogits.getD (qaStartIdx m) 0) ∧
    (qaEndIdx m = argmaxIdx m.endLogits + 1 ∧
      argmaxIdx m.endLogits < m.endLogits.length ∧
      ∀ x ∈ m.endLogits, x ≤ m.endLogits.getD (argmaxIdx m.endLogits) 0) ∧
    (∀ m' : QAInference, m'.endLogits = m.endLogits → qaEndIdx m' = qaEndIdx m) ∧
    spanAnswer m
      = m.decode ((m.inputIds.drop (qaStartIdx m)).take (qaEndIdx m - qaStartIdx m)) ∧
    (∃ m' : QAInference, m'.startLogits ≠ [] ∧ m'.endLogits ≠ [] ∧
      qaEndIdx m' ≤ qaStartIdx m' ∧
      spanAnswer m' = m'.decode []) ∧
    (maxSoftmax m.startLogits = softmaxProb m.startLogits (argmaxIdx m.startLogits) ∧
      ∀ j < m.startLogits.length, softmaxProb m.startLogits j ≤ maxSoftmax m.startLogits) ∧
    (maxSoftmax m.endLogits = softmaxProb m.endLogits (argmaxIdx m.endLogits) ∧
      ∀ j < m.endLogits.length, softmaxProb m.endLogits j ≤ maxSoftmax m.endLogits) ∧
    (¬ (strTrim (spanAnswer m)).length < 2 →
      (generate_qa_answer (Except.ok m) question context).confidence
        = (maxSoftmax m.startLogits + maxSoftmax m.endLogits) / 2) := by
  refine ⟨⟨argmaxIdx_lt_length _ hs, ?_⟩, ⟨rfl, argmaxIdx_lt_length _ he, ?_⟩,
    fun m' hm' => ?_, rfl, ?_, ⟨maxSoftmax_eq_argmax_prob _ hs, ?_⟩,
    ⟨maxSoftmax_eq_argmax_prob _ he, ?_⟩, ?_⟩
  · intro x hx
    rw [qaStartIdx, getD_argmaxIdx _ hs]
    exact le_maxVal _ x hx
  · intro x hx
    rw [getD_argmaxIdx _ he]
    exact le_maxVal _ x hx
  · rw [qaEndIdx, qaEndIdx, hm']
  · refine ⟨⟨[], [0, 0, 1], [1, 0, 0], fun _ => ""⟩, by simp, by simp, by decide, rfl⟩
  · exact fun j hj => softmaxProb_le_maxSoftmax _ j hj
  · exact fun j hj => softmaxProb_le_maxSoftmax _ j hj
  · intro hlong
    simp [generate_qa_answer, if_neg hlong, baseConfidence]

theorem c2_witness :
    (([1, 0] : List ℚ) ≠ [] ∧ ([0, 1] : List ℚ) ≠ []) ∧
    ((qaStartIdx ⟨[5, 6], [1, 0], [0, 1], fun _ => "hello"⟩
          < (QAInference.startLogits ⟨[5, 6], [1, 0], [0, 1], fun _ => "hello"⟩).length ∧
        ∀ x ∈ (QAInference.startLogits ⟨[5, 6], [1, 0], [0, 1], fun _ => "hello"⟩),
          x ≤ (QAInference.startLogits ⟨[5, 6], [1, 0], [0, 1], fun _ => "hello"⟩).getD
            (qaStartIdx ⟨[5, 6], [1, 0], [0, 1], fun _ => "hello"⟩) 0) ∧
      (qaEndIdx ⟨[5, 6], [1, 0], [0, 1], fun _ => "hello"⟩
          = argmaxIdx (QAInference.endLogits ⟨[5, 6], [1, 0], [0, 1], fun _ => "hello"⟩) + 1 ∧
        argmaxIdx (QAInference.endLogits ⟨[5, 6], [1, 0], [0, 1], fun _ => "hello"⟩)
          < (QAInference.endLogits ⟨[5, 6], [1, 0], [0, 1], fun _ => "hello"⟩).length ∧
        ∀ x ∈ (QAInference.endLogits ⟨[5, 6], [1, 0], [0, 1], fun _ => "hello"⟩),
          x ≤ (QAInference.endLogits ⟨[5, 6], [1, 0], [0, 1], fun _ => "hello"⟩).getD
            (argmaxIdx (QAInference.endLogits ⟨[5, 6], [1, 0], [0, 1], fun _ => "hello"⟩)) 0) ∧
      (∀ m' : QAInference,
        m'.endLogits = QAInference.endLogits ⟨[5, 6], [1, 0], [0, 1], fun _ => "hello"⟩ →
          qaEndIdx m' = qaEndIdx ⟨[5, 6], [1, 0], [0, 1], fun _ => "hello"⟩) ∧
      spanAnswer ⟨[5, 6], [1, 0], [0, 1], fun _ => "hello"⟩
        = QAInference.decode ⟨[5, 6], [1, 0], [0, 1], fun _ => "hello"⟩
            (((QAInference.inputIds ⟨[5, 6], [1, 0], [0, 1], fun _ => "hello"⟩).drop
              (qaStartIdx ⟨[5, 6], [1, 0], [0, 1], fun _ => "hello"⟩)).take
              (qaEndIdx ⟨[5, 6], [1, 0], [0, 1], fun _ => "hello"⟩
                - qaStartIdx ⟨[5, 6], [1, 0], [0, 1], fun _ => "hello"⟩)) ∧
      (∃ m' : QAInference, m'.startLogits ≠ [] ∧ m'.endLogits ≠ [] ∧
        qaEndIdx m' ≤ qaStartIdx m' ∧ spanAnswer m' = m'.decode []) ∧
      (maxSoftmax (QAInference.startLogits ⟨[5, 6], [1, 0], [0, 1], fun _ => "hello"⟩)
          = softmaxProb (QAInference.startLogits ⟨[5, 6], [1, 0], [0, 1], fun _ => "hello"⟩)
            (argmaxIdx (QAInference.startLogits ⟨[5, 6], [1, 0], [0, 1], fun _ => "hello"⟩)) ∧
        ∀ j < (QAInference.startLogits ⟨[5, 6], [1, 0], [0, 1], fun _ => "hello"⟩).length,
          softmaxProb (QAInference.startLogits ⟨[5, 6], [1, 0], [0, 1], fun _ => "hello"⟩) j
            ≤ maxSoftmax (QAInference.startLogits ⟨[5, 6], [1, 0], [0, 1], fun _ => "hello"⟩)) ∧
      (maxSoftmax (QAInference.endLogits ⟨[5, 6], [1, 0], [0, 1], fun _ => "hello"⟩)
          = softmaxProb (QAInference.endLogits ⟨[5, 6], [1, 0], [0, 1], fun _ => "hello"⟩)
            (argmaxIdx (QAInference.endLogits ⟨[5, 6], [1, 0], [0, 1], fun _ => "hello"⟩)) ∧
        ∀ j < (QAInference.endLogits ⟨[5, 6], [1, 0], [0, 1], fun _ => "hello"⟩).length,
          softmaxProb (QAInference.endLogits ⟨[5, 6], [1, 0], [0, 1], fun _ => "hello"⟩) j
            ≤ maxSoftmax (QAInference.endLogits ⟨[5, 6], [1, 0], [0, 1], fun _ => "hello"⟩)) ∧
      (¬ (strTrim (spanAnswer ⟨[5, 6], [1, 0], [0, 1], fun _ => "hello"⟩)).length < 2 →
        (generate_qa_answer (Except.ok ⟨[5, 6], [1, 0], [0, 1], fun _ => "hello"⟩)
            "q" "ctx").confidence
          = (maxSoftmax (QAInference.startLogits ⟨[5, 6], [1, 0], [0, 1], fun _ => "hello"⟩)
              + maxSoftmax (QAInference.endLogits ⟨[5, 6], [1, 0], [0, 1], fun _ => "hello"⟩))
            / 2)) :=
  ⟨⟨by decide, by decide⟩,
    c2_span_selection ⟨[5, 6], [1, 0], [0, 1], fun _ => "hello"⟩ "q" "ctx"
      (by decide) (by decide)⟩

/-! ### Generative mode (generate_text_answer) and generate -/

/-- Worker for Python str.replace with fuel bounded by the text length. -/
def replaceAllFuel (pat repl : List Char) : ℕ → List Char → List Char
  | 0, l => l
  | _ + 1, [] => []
  | fuel + 1, c :: rest =>
    if pat ≠ [] ∧ pat.isPrefixOf (c :: rest) then
      repl ++ replaceAllFuel pat repl fuel ((c :: rest).drop pat.length)
    else c :: replaceAllFuel pat repl fuel rest

/-- Python s.replace(pat, repl), non-overlapping left-to-right. -/
def replaceAll (s pat repl : String) : String :=
  String.mk (replaceAllFuel pat.toList repl.toList s.toList.length s.toList)

/-- Worker for Python str.split with the separator "JAWABAN:". -/
def splitJawabanAux : List Char → List Char → List String
  | 'J' :: 'A' :: 'W' :: 'A' :: 'B' :: 'A' :: 'N' :: ':' :: rest, acc =>
    String.mk acc.reverse :: splitJawabanAux rest []
  | c :: rest, acc => splitJawabanAux rest (c :: acc)
  | [], acc => [String.mk acc.reverse]

/-- Python answer.split("JAWABAN:"). -/
def splitJawaban (s : String) : List String := splitJawabanAux s.toList []

/-- The instruction prompt of generate_text_answer, with context and
question substituted. -/
def buildPrompt (context question : String) : String :=
  "Anda adalah asisten AI yang membantu menjawab pertanyaan. \n    Gunakan HANYA informasi dari konteks berikut untuk menjawab pertanyaan.\n\n    KONTEKS:\n    "
    ++ context
    ++ "\n\n    PERTANYAAN: " ++ question
    ++ "\n\n    INSTRUKSI:\n    - Jawab dalam Bahasa Indonesia yang baik dan benar\n    - Berdasarkan hanya pada informasi di konteks\n    - Jika informasi tidak cukup, jelaskan secara singkat\n    - Jangan menambahkan informasi dari luar konteks\n\n    JAWABAN:"

/-- The result of generate_text_answer. -/
structure TextResult where
  answer : String
  confidence : ℝ

/-- generate_text_answer: invoke the external generator on the templated
prompt, strip the prompt from the output, keep the text after the last
"JAWABAN:" marker when present, and report the fixed confidence 0.7; any
exception yields the fixed error answer with confidence 0. -/
noncomputable def generate_text_answer (textModel : String → Except String String)
    (question context : String) : TextResult :=
  match textModel (buildPrompt context question) with
  | .error _ => ⟨qaErrorMsg, 0⟩
  | .ok generated =>
    let answer := strTrim (replaceAll generated (buildPrompt context question) "")
    let answer :=
      if 1 < (splitJawaban answer).length then strTrim ((splitJawaban answer).getLastD "")
      else answer
    ⟨answer, 7 / 10⟩

/-- The model mode selected by configuration. -/
inductive ModelType
  | qa
  | generative
  deriving Repr, DecidableEq

/-- Per-record metadata stored by the vector store. -/
structure RecordMeta where
  source : String
  chunk_id : ℕ
  language : String
  timestamp : ℕ
  deriving Repr, DecidableEq

/-- One formatted search result, as VectorStore.search returns it. -/
structure SearchResult where
  content : String
  metadata : Option RecordMeta
  distance : Option ℚ
  deriving Repr, DecidableEq

/-- One source entry of the final answer record. -/
structure SourceEntry where
  source : String
  content_preview : String
  deriving Repr, DecidableEq

/-- The answer record returned by generate and by the pipeline query. -/
structure AnswerRecord where
  answer : String
  confidence : ℝ
  sources : List SourceEntry

/-- The fixed no-relevant-information answer. -/
def noInfoMsg : String :=
  "Maaf, tidak dapat menemukan informasi yang relevan untuk pertanyaan Anda."

/-- The fixed query-processing error answer. -/
def queryErrorMsg : String := "Maaf, terjadi kesalahan dalam memproses pertanyaan Anda."

/-- doc['content'][:100] + "..." when longer than 100 characters. -/
def contentPreview (c : String) : String :=
  if 100 < c.length then String.mk (c.toList.take 100) ++ "..." else c

/-- The retrieved documents carry source only inside metadata, so the
top-level doc.get('source', 'unknown') of the source always misses. -/
def docSource (_ : SearchResult) : String := "unknown"

/-- IndonesianGenerator.generate: join retrieved contents with blank
lines, short-circuit on empty context, delegate to the configured mode and
attach one preview source entry per retrieved document. -/
noncomputable def generate (modelType : ModelType)
    (qaModel : String → String → Except String QAInference)
    (textModel : String → Except String String)
    (query : String) (context : List SearchResult) : AnswerRecord :=
  let contextText := joinBlankLines (context.map (fun d => d.content))
  if strTrim contextText = "" then ⟨noInfoMsg, 0, []⟩
  else
    let base : String × ℝ :=
      match modelType with
      | .qa =>
        let r := generate_qa_answer (qaModel query contextText) query contextText
        (r.answer, r.confidence)
      | .generative =>
        let r := generate_text_answer textModel query contextText
        (r.answer, r.confidence)
    ⟨base.1, base.2, context.map (fun d => ⟨docSource d, contentPreview d.content⟩)⟩

/-! ### Vector store (VectorStore) -/

/-- One stored record: uuid4 is modelled as a fresh-counter id supply
(the spec treats collisions as negligible). -/
structure StoreRecord where
  recId : ℕ
  content : String
  embedding : List ℚ
  meta : RecordMeta
  deriving Repr, DecidableEq

/-- The state of a VectorStore: the persisted collection contents (none
when the collection is absent from the backing store), whether this
instance's collection handle attribute is set, whether the underlying
get_or_create/fallback raises, whether the underlying query raises, and
the next fresh id. -/
structure VectorStoreState where
  backing : Option (List StoreRecord)
  handleSet : Bool
  ensureFails : Bool
  queryFails : Bool
  nextId : ℕ
  deriving Repr, DecidableEq

/-- _ensure_collection_initialized: get_or_create the named collection
(keeping existing contents, creating it empty otherwise) and set the
handle; a failing underlying store raises. -/
def ensure_collection (st : VectorStoreState) : Except String VectorStoreState :=
  if st.ensureFails then .error "collection error"
  else .ok { st with backing := some (st.backing.getD []), handleSet := true }

/-- Squared euclidean distance between embeddings. -/
def sqDist (a b : List ℚ) : ℚ := ((a.zip b).map (fun p => (p.1 - p.2) ^ 2)).sum

/-- Insert a record into a list kept sorted by distance to the query. -/
def insertByDist (e : List ℚ) (r : StoreRecord) : List StoreRecord → List StoreRecord
  | [] => [r]
  | x :: rest =>
    if sqDist r.embedding e ≤ sqDist x.embedding e then r :: x :: rest
    else x :: insertByDist e r rest

/-- The stored records sorted nearest-first to the query embedding. -/
def sortByDist (e : List ℚ) (records : List StoreRecord) : List StoreRecord :=
  records.foldr (insertByDist e) []

/-- Modelled from the spec: the underlying store's nearest-neighbour query
(engine internals are out of scope, section 4.2) returns up to n_results
records ordered nearest-first by its distance metric. -/
def chromaQuery (records : List StoreRecord) (e : List ℚ) (k : ℕ) : List StoreRecord :=
  (sortByDist e records).take k

/-- VectorStore.search: lazily re-initialize a missing collection handle,
query the store, and format the rows; any exception is caught and an empty
list returned. -/
def vsSearch (st : VectorStoreState) (e : List ℚ) (k : ℕ) : List SearchResult :=
  match (if st.handleSet then Except.ok st else ensure_collection st :
      Except String VectorStoreState) with
  | .error _ => []
  | .ok st1 =>
    if st1.queryFails then []
    else
      (chromaQuery (st1.backing.getD []) e k).map
        (fun r => ⟨r.content, some r.meta, some (sqDist r.embedding e)⟩)

/-- VectorStore.get_collection_count: count of stored records, 0 on any
failure. -/
def get_collection_count (st : VectorStoreState) : ℕ :=
  match (if st.handleSet then Except.ok st else ensure_collection st :
      Except String VectorStoreState) with
  | .error _ => 0
  | .ok st1 => (st1.backing.getD []).length

/-- The records add_documents builds: one fresh id per chunk and metadata
source/chunk_id/language/timestamp. -/
def recordsFor (st : VectorStoreState) (docs : List Chunk) (embeddings : List (List ℚ))
    (now : ℕ) : List StoreRecord :=
  (List.range docs.length).map (fun j =>
    { recId := st.nextId + j
      content := (docs.getD j default).content
      embedding := embeddings.getD j []
      meta :=
        { source := (docs.getD j default).source
          chunk_id := (docs.getD j default).chunk_id
          language := (docs.getD j default).language
          timestamp := now } })

/-- Commit the prepared records in batches of 100; a failing batch is
logged and its records lost while later batches still commit. -/
def commitBatches (batchFails : ℕ → Bool) : ℕ → List StoreRecord → List StoreRecord
  | _, [] => []
  | b, r :: rest =>
    (if batchFails b then [] else (r :: rest).take 100) ++
      commitBatches batchFails (b + 1) ((r :: rest).drop 100)
termination_by _ l => l.length
decreasing_by simp only [List.length_drop, List.length_cons]; omega

/-- VectorStore.add_documents: ensure the collection handle, generate one
fresh id per chunk, build per-record metadata and commit in batches; an
ensure failure propagates (the outer handler re-raises). -/
def add_documents (st : VectorStoreState) (docs : List Chunk)
    (embeddings : List (List ℚ)) (now : ℕ) (batchFails : ℕ → Bool) :
    Except String VectorStoreState :=
  match (if st.handleSet then Except.ok st else ensure_collection st :
      Except String VectorStoreState) with
  | .error e => .error e
  | .ok st1 =>
    .ok { st1 with
      backing := some (st1.backing.getD []
        ++ commitBatches batchFails 0 (recordsFor st1 docs embeddings now))
      nextId := st1.nextId + docs.length }

/-! ### Retriever and pipeline query -/

/-- Retriever.retrieve: re-initialize a missing collection handle, embed
the question as a single-item batch and search; any exception at any step
is caught and an empty list returned. -/
def retrieve (st : VectorStoreState) (embed : String → Except String (List ℚ))
    (question : String) (k : ℕ) : List SearchResult :=
  match (if st.handleSet then Except.ok st else ensure_collection st :
      Except String VectorStoreState) with
  | .error _ => []
  | .ok st1 =>
    match embed question with
    | .error _ => []
    | .ok e => vsSearch st1 e k

/-- IndonesianRAGPipeline.query: retrieve, short-circuit to the fixed
no-information answer on empty retrieval, otherwise delegate to the
generator; any exception yields the fixed error answer. -/
noncomputable def pipelineQuery
    (retrieveFn : String → ℕ → Except String (List SearchResult))
    (gen : String → List SearchResult → AnswerRecord)
    (question : String) (k : ℕ) : AnswerRecord :=
  match retrieveFn question k with
  | .error _ => ⟨queryErrorMsg, 0, []⟩
  | .ok docs =>
    if docs.isEmpty then ⟨noInfoMsg, 0, []⟩
    else gen question docs

/-! ### Batched embedding (IndonesianEmbeddingModel.encode) -/

/-- Worker for encode: batches of batchSize texts; a failing batch is
logged and its embeddings silently omitted. -/
def encodeAux (f : String → List ℚ) (batchFails : ℕ → Bool) (batchSize : ℕ) :
    ℕ → List String → List (List ℚ)
  | _, [] => []
  | b, t :: rest =>
    (if batchFails b then [] else (t :: rest.take (batchSize - 1)).map f) ++
      encodeAux f batchFails batchSize (b + 1) (rest.drop (batchSize - 1))
termination_by _ l => l.length
decreasing_by simp only [List.length_drop, List.length_cons]; omega

/-- encode: embed the texts batch by batch, collecting the surviving
embeddings in order. -/
def encode (f : String → List ℚ) (batchFails : ℕ → Bool) (batchSize : ℕ)
    (texts : List String) : List (List ℚ) :=
  encodeAux f batchFails batchSize 0 texts

/-! ### C5: empty retrieval short-circuits the pipeline query -/

/-- C5: when retrieval returns the empty sequence, query returns the fixed
no-information answer with confidence 0 and empty sources, and the result
does not depend on the generator (the inference function is not invoked). -/
theorem c5_empty_retrieval_short_circuit
    (retrieveFn : String → ℕ → Except String (List SearchResult))
    (gen gen' : String → List SearchResult → AnswerRecord)
    (question : String) (k : ℕ)
    (h : retrieveFn question k = .ok []) :
    pipelineQuery retrieveFn gen question k
        = ⟨noInfoMsg, 0, []⟩ ∧
    pipelineQuery retrieveFn gen question k
        = pipelineQuery retrieveFn gen' question k := by
  constructor <;> simp [pipelineQuery, h]

theorem c5_witness :
    (fun (_ : String) (_ : ℕ) => (Except.ok [] : Except String (List SearchResult))) "q" 3
        = (Except.ok [] : Except String (List SearchResult)) ∧
    (pipelineQuery (fun _ _ => (Except.ok [] : Except String (List SearchResult)))
          (fun _ _ => ⟨"a", 0, []⟩) "q" 3
        = ⟨noInfoMsg, 0, []⟩ ∧
      pipelineQuery (fun _ _ => (Except.ok [] : Except String (List SearchResult)))
          (fun _ _ => ⟨"a", 0, []⟩) "q" 3
        = pipelineQuery (fun _ _ => (Except.ok [] : Except String (List SearchResult)))
            (fun _ _ => ⟨"b", 1, []⟩) "q" 3) :=
  ⟨rfl, c5_empty_retrieval_short_circuit
    (fun _ _ => (Except.ok [] : Except String (List SearchResult)))
    (fun _ _ => ⟨"a", 0, []⟩) (fun _ _ => ⟨"b", 1, []⟩) "q" 3 rfl⟩

/-! ### C6: the search contract -/

lemma chromaQuery_map_length_le (records : List StoreRecord) (e : List ℚ) (k : ℕ) :
    ((chromaQuery records e k).map
      (fun r => (⟨r.content, some r.meta, some (sqDist r.embedding e)⟩ : SearchResult))).length
      ≤ k := by
  rw [List.length_map, chromaQuery, List.length_take]
  exact min_le_left _ _

lemma chromaQuery_nil (e : List ℚ) (k : ℕ) : chromaQuery [] e k = [] := by
  simp [chromaQuery, sortByDist]

lemma vsSearch_eq (st : VectorStoreState) (e : List ℚ) (k : ℕ) :
    vsSearch st e k =
      if st.handleSet then
        (if st.queryFails then []
          else (chromaQuery (st.backing.getD []) e k).map
            (fun r => ⟨r.content, some r.meta, some (sqDist r.embedding e)⟩))
      else if st.ensureFails then []
      else if st.queryFails then []
      else (chromaQuery (st.backing.getD []) e k).map
        (fun r => ⟨r.content, some r.meta, some (sqDist r.embedding e)⟩) := by
  by_cases hh : st.handleSet <;> by_cases hf : st.ensureFails <;>
    simp [vsSearch, ensure_collection, hh, hf]

/-- C6 (amended): search returns at most k results and never raises; it
returns the empty sequence when the underlying query fails, when the
collection handle is missing and re-initialization fails, and when the
collection is empty or absent; a missing handle with successful lazy
re-initialization instead proceeds with the query over the existing
collection. -/
theorem c6_search_contract (st : VectorStoreState) (e : List ℚ) (k : ℕ) :
    (vsSearch st e k).length ≤ k ∧
    (st.queryFails = true → vsSearch st e k = []) ∧
    (st.handleSet = false → st.ensureFails = true → vsSearch st e k = []) ∧
    (st.backing.getD [] = [] → vsSearch st e k = []) := by
  refine ⟨?_, ?_, ?_, ?_⟩
  · rw [vsSearch_eq]
    have hq : ∀ (records : List StoreRecord), (chromaQuery records e k).length ≤ k := by
      intro records
      rw [chromaQuery, List.length_take]
      omega
    split_ifs <;> simp [hq]
  · intro hq
    rw [vsSearch_eq, hq]
    simp
  · intro hh hf
    rw [vsSearch_eq, hh, hf]
    simp
  · intro hb
    rw [vsSearch_eq, hb, chromaQuery_nil]
    simp

theorem c6_witness :
    (vsSearch ⟨some [⟨0, "x", [0], ⟨"s.txt", 0, "indonesian", 0⟩⟩],
          true, false, false, 1⟩ [0] 2).length ≤ 2 ∧
    (VectorStoreState.queryFails (⟨some [⟨0, "x", [0], ⟨"s.txt", 0, "indonesian", 0⟩⟩],
          true, false, false, 1⟩ : VectorStoreState) = true →
      vsSearch ⟨some [⟨0, "x", [0], ⟨"s.txt", 0, "indonesian", 0⟩⟩],
          true, false, false, 1⟩ [0] 2 = []) ∧
    (VectorStoreState.handleSet (⟨some [⟨0, "x", [0], ⟨"s.txt", 0, "indonesian", 0⟩⟩],
          true, false, false, 1⟩ : VectorStoreState) = false →
      VectorStoreState.ensureFails (⟨some [⟨0, "x", [0], ⟨"s.txt", 0, "indonesian", 0⟩⟩],
          true, false, false, 1⟩ : VectorStoreState) = true →
      vsSearch ⟨some [⟨0, "x", [0], ⟨"s.txt", 0, "indonesian", 0⟩⟩],
          true, false, false, 1⟩ [0] 2 = []) ∧
    ((VectorStoreState.backing (⟨some [⟨0, "x", [0], ⟨"s.txt", 0, "indonesian", 0⟩⟩],
          true, false, false, 1⟩ : VectorStoreState)).getD [] = [] →
      vsSearch ⟨some [⟨0, "x", [0], ⟨"s.txt", 0, "indonesian", 0⟩⟩],
          true, false, false, 1⟩ [0] 2 = []) :=
  c6_search_contract ⟨some [⟨0, "x", [0], ⟨"s.txt", 0, "indonesian", 0⟩⟩],
    true, false, false, 1⟩ [0] 2

/-- C6 (counterexample): a store whose collection handle is not yet
initialized but whose backing collection holds a record; search lazily
re-initializes and returns that record, not the empty sequence the claim
asserts for the not-yet-initialized case. -/
theorem c6_counterexample :
    VectorStoreState.handleSet (⟨some [⟨0, "isi dokumen", [0],
          ⟨"s.txt", 0, "indonesian", 0⟩⟩], false, false, false, 1⟩ : VectorStoreState)
        = false ∧
    vsSearch ⟨some [⟨0, "isi dokumen", [0], ⟨"s.txt", 0, "indonesian", 0⟩⟩],
        false, false, false, 1⟩ [0] 5 ≠ [] := by
  refine ⟨rfl, ?_⟩
  decide

/-! ### C7: retrieval failures degrade to the empty result -/

/-- C7: if the readiness check, the question embedding or the vector-store
query fails, Retriever.retrieve returns the empty sequence instead of
propagating the failure. -/
theorem c7_retrieve_failure_empty (st : VectorStoreState)
    (embed : String → Except String (List ℚ)) (question : String) (k : ℕ)
    (h : (∃ msg, embed question = .error msg) ∨
      (st.handleSet = false ∧ st.ensureFails = true) ∨ st.queryFails = true) :
    retrieve st embed question k = [] := by
  rcases h with ⟨msg, hm⟩ | ⟨hh, hf⟩ | hq
  · by_cases hh : st.handleSet = true
    · simp [retrieve, hh, hm]
    · have hh' : st.handleSet = false := by
        cases hv : st.handleSet
        · rfl
        · exact absurd hv hh
      cases hf : st.ensureFails
      · simp [retrieve, hh', ensure_collection, hf, hm]
      · simp [retrieve, hh', ensure_collection, hf]
  · simp [retrieve, hh, ensure_collection, hf]
  · by_cases hh : st.handleSet = true
    · cases hembed : embed question with
      | error m => simp [retrieve, hh, hembed]
      | ok e => simp [retrieve, hh, hembed, vsSearch, hq]
    · have hh' : st.handleSet = false := by
        cases hv : st.handleSet
        · rfl
        · exact absurd hv hh
      cases hf : st.ensureFails
      · cases hembed : embed question with
        | error m => simp [retrieve, hh', ensure_collection, hf, hembed]
        | ok e => simp [retrieve, hh', ensure_collection, hf, hembed, vsSearch, hq]
      · simp [retrieve, hh', ensure_collection, hf]

theorem c7_witness :
    ((∃ msg, (fun (_ : String) => (Except.error "embed down" : Except String (List ℚ))) "q"
          = .error msg) ∨
      (VectorStoreState.handleSet (⟨none, true, false, false, 0⟩ : VectorStoreState) = false ∧
        VectorStoreState.ensureFails (⟨none, true, false, false, 0⟩ : VectorStoreState) = true) ∨
      VectorStoreState.queryFails (⟨none, true, false, false, 0⟩ : VectorStoreState) = true) ∧
    retrieve ⟨none, true, false, false, 0⟩
        (fun _ => (Except.error "embed down" : Except String (List ℚ))) "q" 5 = [] :=
  ⟨Or.inl ⟨"embed down", rfl⟩,
    c7_retrieve_failure_empty ⟨none, true, false, false, 0⟩
      (fun _ => Except.error "embed down") "q" 5 (Or.inl ⟨"embed down", rfl⟩)⟩

/-! ### C8: no deduplication on add -/

lemma commitBatches_noFail_single (r : StoreRecord) :
    commitBatches (fun _ => false) 0 [r] = [r] := by
  rw [commitBatches]
  simp
  rw [commitBatches]

lemma recordsFor_single (stx : VectorStoreState) (c : Chunk) (e : List ℚ) (now : ℕ) :
    recordsFor stx [c] [e] now
      = [⟨stx.nextId, c.content, e, ⟨c.source, c.chunk_id, c.language, now⟩⟩] := by
  simp [recordsFor, List.range_succ]

/-- C8: adding the same chunk twice creates two distinct records with two
distinct generated ids, both holding the chunk's content, and increases
the collection count by exactly 2; nothing is deduplicated or updated in
place. -/
theorem c8_no_dedup (st : VectorStoreState) (c : Chunk) (e : List ℚ) (now1 now2 : ℕ)
    (h : st.ensureFails = false) :
    ∃ (st1 st2 : VectorStoreState) (r1 r2 : StoreRecord),
      add_documents st [c] [e] now1 (fun _ => false) = .ok st1 ∧
      add_documents st1 [c] [e] now2 (fun _ => false) = .ok st2 ∧
      r1.recId ≠ r2.recId ∧ r1 ≠ r2 ∧
      r1.content = c.content ∧ r2.content = c.content ∧
      st1.backing = some (st.backing.getD [] ++ [r1]) ∧
      st2.backing = some (st.backing.getD [] ++ [r1, r2]) ∧
      get_collection_count st1 = get_collection_count st + 1 ∧
      get_collection_count st2 = get_collection_count st + 2 := by
  have hadd : ∀ (stx : VectorStoreState), stx.handleSet = true → ∀ now,
      add_documents stx [c] [e] now (fun _ => false)
        = .ok { stx with
            backing := some (stx.backing.getD []
              ++ [⟨stx.nextId, c.content, e, ⟨c.source, c.chunk_id, c.language, now⟩⟩])
            nextId := stx.nextId + 1 } := by
    intro stx hx now
    simp [add_documents, hx, recordsFor_single, commitBatches_noFail_single]
  cases hh : st.handleSet
  · have hadd1 : add_documents st [c] [e] now1 (fun _ => false)
        = .ok { st with
            backing := some (st.backing.getD []
              ++ [⟨st.nextId, c.content, e, ⟨c.source, c.chunk_id, c.language, now1⟩⟩])
            handleSet := true
            nextId := st.nextId + 1 } := by
      simp [add_documents, hh, ensure_collection, h, recordsFor_single,
        commitBatches_noFail_single]
    refine ⟨_, _, ⟨st.nextId, c.content, e, ⟨c.source, c.chunk_id, c.language, now1⟩⟩,
      ⟨st.nextId + 1, c.content, e, ⟨c.source, c.chunk_id, c.language, now2⟩⟩,
      hadd1, hadd _ rfl now2, by simp, ?_, rfl, rfl, rfl, by simp, ?_, ?_⟩
    · intro heq
      have := congrArg StoreRecord.recId heq
      simp at this
    · simp [get_collection_count, ensure_collection, h, hh]
    · simp [get_collection_count, ensure_collection, h, hh]
  · have hadd1 := hadd st hh now1
    refine ⟨_, _, ⟨st.nextId, c.content, e, ⟨c.source, c.chunk_id, c.language, now1⟩⟩,
      ⟨st.nextId + 1, c.content, e, ⟨c.source, c.chunk_id, c.language, now2⟩⟩,
      hadd1, hadd { st with
        backing := some (st.backing.getD []
          ++ [⟨st.nextId, c.content, e, ⟨c.source, c.chunk_id, c.language, now1⟩⟩])
        nextId := st.nextId + 1 } hh now2, by simp, ?_, rfl, rfl, rfl, by simp, ?_, ?_⟩
    · intro heq
      have := congrArg StoreRecord.recId heq
      simp at this
    · simp [get_collection_count, hh]
    · simp [get_collection_count, hh]

theorem c8_witness :
    VectorStoreState.ensureFails (⟨none, false, false, false, 0⟩ : VectorStoreState)
        = false ∧
    ∃ (st1 st2 : VectorStoreState) (r1 r2 : StoreRecord),
      add_documents ⟨none, false, false, false, 0⟩
          [⟨"isi", "a.txt", 0, 1, "indonesian", 3⟩] [[(1 : ℚ)]] 11 (fun _ => false) = .ok st1 ∧
      add_documents st1 [⟨"isi", "a.txt", 0, 1, "indonesian", 3⟩] [[(1 : ℚ)]] 12
          (fun _ => false) = .ok st2 ∧
      r1.recId ≠ r2.recId ∧ r1 ≠ r2 ∧
      r1.content = Chunk.content ⟨"isi", "a.txt", 0, 1, "indonesian", 3⟩ ∧
      r2.content = Chunk.content ⟨"isi", "a.txt", 0, 1, "indonesian", 3⟩ ∧
      st1.backing = some ((VectorStoreState.backing
          (⟨none, false, false, false, 0⟩ : VectorStoreState)).getD [] ++ [r1]) ∧
      st2.backing = some ((VectorStoreState.backing
          (⟨none, false, false, false, 0⟩ : VectorStoreState)).getD [] ++ [r1, r2]) ∧
      get_collection_count st1
        = get_collection_count ⟨none, false, false, false, 0⟩ + 1 ∧
      get_collection_count st2
        = get_collection_count ⟨none, false, false, false, 0⟩ + 2 :=
  ⟨rfl, c8_no_dedup ⟨none, false, false, false, 0⟩
    ⟨"isi", "a.txt", 0, 1, "indonesian", 3⟩ [(1 : ℚ)] 11 12 rfl⟩

/-! ### C9: confidence stays within the unit interval -/

lemma qa_confidence_bounds (inf : Except String QAInference) (question context : String) :
    0 ≤ (generate_qa_answer inf question context).confidence ∧
    (generate_qa_answer inf question context).confidence ≤ 1 := by
  cases inf with
  | error m => simp [generate_qa_answer]
  | ok m =>
    have hs0 := maxSoftmax_nonneg m.startLogits
    have hs1 := maxSoftmax_le_one m.startLogits
    have he0 := maxSoftmax_nonneg m.endLogits
    have he1 := maxSoftmax_le_one m.endLogits
    by_cases hshort : (strTrim (spanAnswer m)).length < 2
    · simp only [generate_qa_answer, if_pos hshort, baseConfidence]
      constructor
      · positivity
      · nlinarith
    · simp only [generate_qa_answer, if_neg hshort, baseConfidence]
      constructor
      · positivity
      · linarith

lemma text_confidence_bounds (textModel : String → Except String String)
    (question context : String) :
    0 ≤ (generate_text_answer textModel question context).confidence ∧
    (generate_text_answer textModel question context).confidence ≤ 1 := by
  cases htm : textModel (buildPrompt context question) with
  | error m => simp [generate_text_answer, htm]
  | ok g =>
    simp only [generate_text_answer, htm]
    norm_num

/-- C9: for every question and retrieved context, in both modes and on
every fallback and error path, the confidence of the answer record
returned by generate lies within the closed unit interval. -/
theorem c9_confidence_bounds (modelType : ModelType)
    (qaModel : String → String → Except String QAInference)
    (textModel : String → Except String String)
    (query : String) (context : List SearchResult) :
    0 ≤ (generate modelType qaModel textModel query context).confidence ∧
    (generate modelType qaModel textModel query context).confidence ≤ 1 := by
  unfold generate
  by_cases hctx : strTrim (joinBlankLines (context.map (fun d => d.content))) = ""
  · rw [if_pos hctx]
    norm_num
  · rw [if_neg hctx]
    cases modelType
    · exact qa_confidence_bounds _ query _
    · exact text_confidence_bounds textModel query _

/-! ### C10: batched encoding -/

lemma encodeAux_noFail (f : String → List ℚ) (batchFails : ℕ → Bool) (batchSize : ℕ)
    (h : ∀ i, batchFails i = false) :
    ∀ (n : ℕ) (texts : List String) (b : ℕ), texts.length ≤ n →
      encodeAux f batchFails batchSize b texts = texts.map f := by
  intro n
  induction n with
  | zero =>
    intro texts b hlen
    have : texts = [] := List.eq_nil_of_length_eq_zero (by omega)
    subst this
    rw [encodeAux]
    rfl
  | succ n ih =>
    intro texts b hlen
    cases texts with
    | nil =>
      rw [encodeAux]
      rfl
    | cons t rest =>
      rw [encodeAux, h b]
      have hrec := ih (rest.drop (batchSize - 1)) (b + 1)
        (by rw [List.length_drop]; simp at hlen; omega)
      rw [hrec]
      simp only [if_neg (by simp : ¬ false = true)]
      rw [← List.map_append, List.cons_append, List.take_append_drop]

/-- C10: when no per-batch encoding call fails, encode returns exactly one
embedding per input text in input order; a failing batch is swallowed and
its embeddings omitted, so the output can be shorter than the input,
breaking the one-embedding-per-chunk pairing build_index hands to
add_documents. -/
theorem c10_encode_batches (f : String → List ℚ) (batchFails : ℕ → Bool)
    (batchSize : ℕ) (texts : List String)
    (h : ∀ i, batchFails i = false) :
    encode f batchFails batchSize texts = texts.map f ∧
    (encode f batchFails batchSize texts).length = texts.length ∧
    ∃ (texts2 : List String) (batchFails2 : ℕ → Bool),
      (encode f batchFails2 batchSize texts2).length < texts2.length := by
  have hmain : encode f batchFails batchSize texts = texts.map f :=
    encodeAux_noFail f batchFails batchSize h texts.length texts 0 (le_refl _)
  refine ⟨hmain, by rw [hmain, List.length_map], ⟨["x"], fun _ => true, ?_⟩⟩
  have : encode f (fun _ => true) batchSize ["x"] = [] := by
    rw [encode, encodeAux]
    simp
    rw [encodeAux]
  rw [this]
  simp

theorem c10_witness :
    (∀ i, (fun (_ : ℕ) => false) i = false) ∧
    (encode (fun _ => [(1 : ℚ)]) (fun _ => false) 32 ["a", "b"]
        = ["a", "b"].map (fun _ => [(1 : ℚ)]) ∧
      (encode (fun _ => [(1 : ℚ)]) (fun _ => false) 32 ["a", "b"]).length
        = (["a", "b"] : List String).length ∧
      ∃ (texts2 : List String) (batchFails2 : ℕ → Bool),
        (encode (fun _ => [(1 : ℚ)]) batchFails2 32 texts2).length < texts2.length) :=
  ⟨fun _ => rfl, c10_encode_batches (fun _ => [(1 : ℚ)]) (fun _ => false) 32
    ["a", "b"] (fun _ => rfl)⟩

end RagSystem
